import Mathlib

/-!
# Shallow embedding of `src/counter.rs` (suwakei/lines-rust)

The Rust source counts lines of code over a list of files: each line is
classified as blank / comment / code by a prefix-and-suffix heuristic with a
single boolean block-comment state; per-file counts are merged into a map
keyed by file-type tag (extension, or bare file name); grand totals are a
fold over the snapshot of that map.

Modelling choices (all driven by the source, `src/counter.rs`):
* Rust `&str` operations are modelled on `String` via its character list.
  `str::starts_with` / `str::ends_with` on valid UTF-8 agree with character
  prefix / suffix tests, and `str::len` (bytes) is `String.utf8ByteSize`.
  `str::trim` is modelled with `Char.isWhitespace` on both ends.
* The file system is a total map from path strings to an entry: `missing`
  (opening the file fails), or a list of successfully read lines together
  with a flag telling whether the reader fails after those lines
  (a mid-stream read error).
* `HashMap<String, FileInfo>` is modelled as an association list with the
  keys kept unique; `entry().or_insert_with(default)` updates in place or
  appends a fresh bucket.  The snapshot loop pushes the values in list
  order (one possible iteration order of the hash map).
* The concurrent path (`thread::spawn` per chunk + one mutex around each
  merge) is linearised: chunks are processed in order.  Every access to the
  shared map is a single per-file critical section in the source, so any
  interleaving is a permutation of the same per-file merges; bucket updates
  are additions, hence the final map contents do not depend on the
  interleaving.  A panic in any worker reaches `handle.join().unwrap()` and
  panics the whole call, which the `Outcome.panicked` value models.
* `ret_file_type` calls `Path::file_name().unwrap()`, which panics when the
  path has no file-name component; the model returns `none` for that panic.
-/

namespace Counter

/-- Model of Rust `str::starts_with` (a byte-prefix test, equal to a
character-prefix test on valid UTF-8). -/
def strStarts (s p : String) : Bool := p.data.isPrefixOf s.data

/-- Model of Rust `str::ends_with`. -/
def strEnds (s p : String) : Bool := p.data.isSuffixOf s.data

/-- Model of Rust `str::trim`: drop whitespace from both ends. -/
def strTrim (s : String) : String :=
  ⟨((s.data.dropWhile Char.isWhitespace).reverse.dropWhile Char.isWhitespace).reverse⟩

/-- Embeds `struct FileInfo` of `counter.rs`; `Default` gives all-zero fields and an
empty `filetype` string. -/
structure FileInfo where
  filetype : String := ""
  steps : Nat := 0
  blanks : Nat := 0
  comments : Nat := 0
  files : Nat := 0
  bytes : Nat := 0
deriving DecidableEq

/-- Embeds `struct CntResult` of `counter.rs`. -/
structure CntResult where
  info : List FileInfo := []
  input_path : String := ""
  all_steps : Nat := 0
  all_blanks : Nat := 0
  all_comments : Nat := 0
  all_files : Nat := 0
  all_bytes : Nat := 0
deriving DecidableEq

def MAX_CAPACITY : Nat := 1024 * 1024

def CONCURRENCY_THRESHOLD : Nat := 6

/-- Keys of the `SINGLE_COMMENT_PREFIXES` table (the `()` values carry no
information).  `\x27` is the apostrophe character. -/
def SINGLE_COMMENT_PREFIXES : List String :=
  ["//", "///", "#", "!", "--", "%", ";", "#;", "⍝", "rem ", "::", ":  ", "\x27"]

/-- Keys of the `BLOCK_COMMENT_PREFIXES` table.  `\x7b` is `{`. -/
def BLOCK_COMMENT_PREFIXES : List String :=
  ["/*", "/**", "--", "<!--", "<%--", "////", "/+", "/++", "(*", "\x7b-",
   "\"\"\"", "\x27\x27\x27", "#=", "--[[", "%\x7b", "#[", "=pod", "=comment",
   "=begin", "<#", "#|"]

/-- Keys of the `BLOCK_COMMENT_SUFFIXES` table.  `\x7d` is `}`. -/
def BLOCK_COMMENT_SUFFIXES : List String :=
  ["*/", "**/", "-->", "--%>", "--", "+/", "*)", "-\x7d", "%\x7d", "=#",
   "=cut", "=end", "--]]", "]#", "#>", "\"\"\"", "\x27\x27\x27", "|#"]

/-- Embeds `fn is_single_comment`: any registered single-line marker starts the line.
(`HashMap::keys().any(..)` visits keys in an unspecified order; `any` is
order-independent, so a list suffices.) -/
def is_single_comment (line : String) : Bool :=
  SINGLE_COMMENT_PREFIXES.any (fun p => strStarts line p)

/-- Embeds `fn is_begin_block_comments`. -/
def is_begin_block_comments (line : String) : Bool :=
  BLOCK_COMMENT_PREFIXES.any (fun p => strStarts line p)

/-- Embeds `fn is_end_block_comments`. -/
def is_end_block_comments (line : String) : Bool :=
  BLOCK_COMMENT_SUFFIXES.any (fun s => strEnds line s)

/-- Classification of one trimmed line in the loop body of `count_file`: the
category the line is counted under, and the block-comment state after the
line.  This is a direct reading of the `if`/`continue` chain at
`counter.rs:82-104`. -/
inductive Category
  | blank
  | comment
  | code
deriving DecidableEq

def classify (line : String) (in_block : Bool) : Category × Bool :=
  if line = "" then (Category.blank, in_block)
  else if is_single_comment line then (Category.comment, in_block)
  else if is_begin_block_comments line then (Category.comment, true)
  else if in_block then
    (Category.comment, if is_end_block_comments line then false else true)
  else (Category.code, in_block)

/-- One iteration of the `for line in scanner.lines()` loop of `count_file`
(after a successful read): trim, bump `steps` and `bytes`, then update the
per-category counter and the block state via `classify`. -/
def scanLine (st : Bool × FileInfo) (rawLine : String) : Bool × FileInfo :=
  let line := strTrim rawLine
  let info := st.2
  let info := { info with steps := info.steps + 1,
                          bytes := info.bytes + (line.utf8ByteSize + 1) }
  match classify line st.1 with
  | (Category.blank, b) => (b, { info with blanks := info.blanks + 1 })
  | (Category.comment, b) => (b, { info with comments := info.comments + 1 })
  | (Category.code, b) => (b, info)

/-- Categories of a sequence of (already trimmed) lines scanned from a given
block state, with the final block state. -/
def classifyLines : List String → Bool → List Category × Bool
  | [], b => ([], b)
  | l :: ls, b =>
    let r := classify l b
    let rest := classifyLines ls r.2
    (r.1 :: rest.1, rest.2)

/-- Path components as the Rust `Path` type sees them for these purposes: split on
`/`, dropping empty components and `.` (`CurDir`). -/
def pathComponents (path : String) : List String :=
  ((splitOnChar '/' path.data).map (fun l => String.mk l)).filter
    (fun c => c != "" && c != ".")
where
  splitOnChar (c : Char) : List Char → List (List Char)
    | [] => [[]]
    | x :: xs =>
      let r := splitOnChar c xs
      if x = c then [] :: r
      else
        match r with
        | [] => [[x]]
        | y :: ys => (x :: y) :: ys

/-- Model of `Path::file_name`: the last component when it is a normal one;
`None` for a path ending in `..` or having no components. -/
def file_name (path : String) : Option String :=
  match (pathComponents path).getLast? with
  | none => none
  | some c => if c = ".." then none else some c

/-- Index of the last `.` in a character list, if any. -/
def lastDotIdx : List Char → Option Nat
  | [] => none
  | c :: rest =>
    match lastDotIdx rest with
    | some i => some (i + 1)
    | none => if c = '.' then some 0 else none

/-- Model of `Path::extension`: the part of the file name after its last `.`,
provided that dot is not the leading character (hidden files such as
`.gitignore` have no extension). -/
def extension (path : String) : Option String :=
  match file_name path with
  | none => none
  | some f =>
    match lastDotIdx f.data with
    | none => none
    | some i => if i = 0 then none else some (String.mk (f.data.drop (i + 1)))

/-- Embeds `fn ret_file_type`: the extension when present, else
`path.file_name().unwrap()`.  The `unwrap` panics when `file_name` is `None`;
the model returns `none` for that panic. -/
def ret_file_type (path : String) : Option String :=
  match extension path with
  | some ext => some ext
  | none => file_name path

/-- A file-system entry: `missing` (opening fails) or the lines a buffered
reader yields successfully, with `readErr = true` when the read fails after
those lines (a mid-stream I/O error). -/
inductive FsEntry
  | missing
  | file (lines : List String) (readErr : Bool)
deriving DecidableEq

/-- The ambient file system for one run. -/
abbrev Fs : Type := String → FsEntry

/-- Result of scanning one file: the `unwrap` panic in `ret_file_type`, an
I/O error (`io::Result::Err`), or the accumulated `FileInfo`. -/
inductive ScanOut
  | panicked
  | ioError
  | ok (fi : FileInfo)
deriving DecidableEq

/-- Embeds `fn count_file`: open, compute the file type (panicking when
`ret_file_type` does), scan the lines, fail with the read error if one
occurs (discarding the partial info, as `line?` does). -/
def count_file (fs : Fs) (file : String) : ScanOut :=
  match fs file with
  | FsEntry.missing => ScanOut.ioError
  | FsEntry.file lines readErr =>
    match ret_file_type file with
    | none => ScanOut.panicked
    | some ft =>
      let st := lines.foldl scanLine (false, ({ filetype := ft } : FileInfo))
      if readErr then ScanOut.ioError else ScanOut.ok st.2

/-- The shared `HashMap<String, FileInfo>` as an association list with unique
keys; the list order is one iteration order of the map. -/
abbrev BufMap : Type := List (String × FileInfo)

/-- The bucket update of `process_file` after `entry()`: add the scanned
per-file `steps`/`blanks`/`comments`/`bytes` into the bucket and bump `files`
by one.  The `filetype` field of the bucket is left untouched (the source
never assigns it; a fresh bucket keeps the empty string of the default). -/
def addInto (v fi : FileInfo) : FileInfo :=
  { v with steps := v.steps + fi.steps, blanks := v.blanks + fi.blanks,
           comments := v.comments + fi.comments, bytes := v.bytes + fi.bytes,
           files := v.files + 1 }

/-- Embeds `buf_map.entry(file_info.filetype).or_insert_with(FileInfo::default)`
followed by the additions: update the bucket in place when the key exists,
else append a fresh zero bucket and add into it. -/
def mergeScan (m : BufMap) (fi : FileInfo) : BufMap :=
  match m with
  | [] => [(fi.filetype, addInto {} fi)]
  | (k, v) :: rest =>
    if k = fi.filetype then (k, addInto v fi) :: rest
    else (k, v) :: mergeScan rest fi

/-- Outcome of a whole operation: a panic, a propagated I/O error, or a
value. -/
inductive Outcome (α : Type)
  | panicked
  | ioError
  | ok (a : α)
deriving DecidableEq

/-- Embeds `fn process_file`: scan the file and merge into the map (the lock/unlock
around the merge is the linearisation point). -/
def process_file (fs : Fs) (file : String) (m : BufMap) : Outcome BufMap :=
  match count_file fs file with
  | ScanOut.ok fi => Outcome.ok (mergeScan m fi)
  | ScanOut.ioError => Outcome.ioError
  | ScanOut.panicked => Outcome.panicked

/-- Embeds `fn process_files` (the loop of one worker): a per-file I/O error is only logged
with `eprintln!` and the file is skipped; a panic aborts the worker. -/
def process_files (fs : Fs) : List String → BufMap → Outcome BufMap
  | [], m => Outcome.ok m
  | f :: rest, m =>
    match count_file fs f with
    | ScanOut.panicked => Outcome.panicked
    | ScanOut.ioError => process_files fs rest m
    | ScanOut.ok fi => process_files fs rest (mergeScan m fi)

/-- The sequential loop of `count` (`for file in files { process_file(..)? }`):
the first error or panic aborts. -/
def seqRun (fs : Fs) : List String → BufMap → Outcome BufMap
  | [], m => Outcome.ok m
  | f :: rest, m =>
    match process_file fs f m with
    | Outcome.ok m2 => seqRun fs rest m2
    | Outcome.ioError => Outcome.ioError
    | Outcome.panicked => Outcome.panicked

/-- Model of Rust `slice::chunks(cs)`: consecutive chunks of `cs` elements, the last
one possibly shorter, never empty.  (`chunks` panics on `cs = 0`; `count`
only calls it with `cs ≥ 2`, the `[xs]` branch is a harmless totaliser.) -/
def chunksOf (cs : Nat) : List α → List (List α)
  | [] => []
  | x :: xs =>
    if _hcs : cs = 0 then [x :: xs]
    else (x :: xs).take cs :: chunksOf cs ((x :: xs).drop cs)
termination_by l => l.length
decreasing_by
  simp only [List.length_drop, List.length_cons]
  omega

/-- The fan-out/join of the concurrent branch of `count`, linearised chunk by
chunk: each worker runs `process_files`; a worker panic reaches
`handle.join().unwrap()` and panics the call. -/
def runChunks (fs : Fs) : List (List String) → BufMap → Outcome BufMap
  | [], m => Outcome.ok m
  | c :: rest, m =>
    match process_files fs c m with
    | Outcome.ok m2 => runChunks fs rest m2
    | Outcome.ioError => Outcome.ioError
    | Outcome.panicked => Outcome.panicked

/-- Embeds `CntResult::assign_alls`: fold the totals over `info`, adding into the
(zero) totals of the receiver.  The source writes `info.bytes as i64` for
the last addition; the cast is value-preserving and modelled as plain
addition on `Nat`. -/
def addTotals (acc : CntResult) (info : FileInfo) : CntResult :=
  { acc with all_steps := acc.all_steps + info.steps,
             all_blanks := acc.all_blanks + info.blanks,
             all_comments := acc.all_comments + info.comments,
             all_files := acc.all_files + info.files,
             all_bytes := acc.all_bytes + info.bytes }

def assign_alls (r : CntResult) : CntResult :=
  r.info.foldl addTotals r

/-- The tail of `count`: snapshot the map values into `result.info` (in
iteration order) and compute the grand totals. -/
def mkResult (input_path : String) (m : BufMap) : CntResult :=
  assign_alls { info := m.map Prod.snd, input_path := input_path }

/-- The `len_files < CONCURRENCY_THRESHOLD` branch of `fn count`. -/
def countSequential (fs : Fs) (files : List String) (input_path : String) :
    Outcome CntResult :=
  match seqRun fs files [] with
  | Outcome.ok m => Outcome.ok (mkResult input_path m)
  | Outcome.ioError => Outcome.ioError
  | Outcome.panicked => Outcome.panicked

/-- The `len_files >= CONCURRENCY_THRESHOLD` branch of `fn count`:
`chunk_size = (len_files + 2) / 3`, one worker per chunk. -/
def countConcurrent (fs : Fs) (files : List String) (input_path : String) :
    Outcome CntResult :=
  match runChunks fs (chunksOf ((files.length + 2) / 3) files) [] with
  | Outcome.ok m => Outcome.ok (mkResult input_path m)
  | Outcome.ioError => Outcome.ioError
  | Outcome.panicked => Outcome.panicked

/-- Embeds `fn count`. -/
def count (fs : Fs) (files : List String) (input_path : String) :
    Outcome CntResult :=
  if files.length ≥ CONCURRENCY_THRESHOLD then countConcurrent fs files input_path
  else countSequential fs files input_path

/-- The `FileInfo`s of exactly the files whose scan succeeds, in list
order. -/
def okScans (fs : Fs) (files : List String) : List FileInfo :=
  files.filterMap (fun f =>
    match count_file fs f with
    | ScanOut.ok fi => some fi
    | _ => none)

/-- Lookup by key in the aggregation map (Rust `HashMap::get`). -/
def lookupTag (t : String) : BufMap → Option FileInfo
  | [] => none
  | (k, v) :: rest => if k = t then some v else lookupTag t rest

/-- A one-file file system used as a concrete instance: `main.rs` holds the
single line `fn main()`. -/
def fsMain : Fs := fun p =>
  if p = "main.rs" then FsEntry.file ["fn main()"] false else FsEntry.missing

/-- Concrete instance for the byte-count approximation: three lines whose
trimmed lengths are 4, 0 and 10. -/
def fsBytes : Fs := fun p =>
  if p = "notes.txt" then FsEntry.file ["abcd", "", "0123456789"] false
  else FsEntry.missing

/-- A scanned-file record used as a concrete merge input. -/
def fiPy : FileInfo :=
  { filetype := "py", steps := 2, blanks := 1, comments := 0, files := 0, bytes := 9 }

/-- A pre-existing bucket used as a concrete merge target. -/
def bucketRs : FileInfo :=
  { filetype := "", steps := 5, blanks := 1, comments := 2, files := 1, bytes := 40 }

/-- Sequential-path instance: `a.rs` scans fine, opening `b.rs` fails, and
`c.rs` would scan fine if reached. -/
def fsSeq : Fs := fun p =>
  if p = "b.rs" then FsEntry.missing
  else if p = "a.rs" then FsEntry.file ["// a"] false
  else if p = "c.rs" then FsEntry.file ["code"] false
  else FsEntry.missing

/-- Concurrent-path instance: six files, `bad.rs` cannot be opened, the rest
hold one code line each. -/
def fsSix : Fs := fun p =>
  if p = "bad.rs" then FsEntry.missing
  else FsEntry.file ["code"] false

/-- The six file names driven through the concurrent path. -/
def sixFiles : List String :=
  ["a.rs", "b.rs", "bad.rs", "c.py", "d.py", "e.rs"]

/-- The result `count` produces on `fsMain` for `["main.rs"]`. -/
def mainResult : CntResult :=
  { info := [{ filetype := "", steps := 1, blanks := 0, comments := 0,
               files := 1, bytes := 10 }],
    input_path := ".", all_steps := 1, all_blanks := 0, all_comments := 0,
    all_files := 1, all_bytes := 10 }

example : ret_file_type "main.rs" = some "rs" := by decide
example : ret_file_type "Makefile" = some "Makefile" := by decide
example : ret_file_type ".." = none := by decide
example : ret_file_type "/" = none := by decide
example : count_file fsMain "main.rs" =
    ScanOut.ok { filetype := "rs", steps := 1, bytes := 10 } := by decide
example : count fsMain ["main.rs"] "." =
    Outcome.ok { info := [{ filetype := "", steps := 1, blanks := 0, comments := 0,
                            files := 1, bytes := 10 }],
                 input_path := ".", all_steps := 1, all_blanks := 0, all_comments := 0,
                 all_files := 1, all_bytes := 10 } := by decide
example : classifyLines ["/* start", "still inside", "end */", "code();"] false =
    ([Category.comment, Category.comment, Category.comment, Category.code], false) := by
  decide
example : (classifyLines ["/* start", "still inside", "end */"] false).2 = false := by decide
example : chunksOf 3 [1, 2, 3, 4, 5, 6, 7] = [[1, 2, 3], [4, 5, 6], [7]] := by
  simp [chunksOf]

/-! ## Supporting lemmas -/

theorem scanLine_fields (st : Bool × FileInfo) (l : String) :
    (scanLine st l).2.steps = st.2.steps + 1 ∧
    (scanLine st l).2.bytes = st.2.bytes + ((strTrim l).utf8ByteSize + 1) ∧
    (scanLine st l).2.filetype = st.2.filetype ∧
    (scanLine st l).2.files = st.2.files := by
  cases hc : classify (strTrim l) st.1 with
  | mk c b => cases c <;> simp [scanLine, hc]

theorem scanAccum (lines : List String) (b : Bool) (info : FileInfo) :
    (lines.foldl scanLine (b, info)).2.steps = info.steps + lines.length ∧
    (lines.foldl scanLine (b, info)).2.bytes =
      info.bytes + (lines.map (fun l => (strTrim l).utf8ByteSize + 1)).sum ∧
    (lines.foldl scanLine (b, info)).2.filetype = info.filetype ∧
    (lines.foldl scanLine (b, info)).2.files = info.files := by
  induction lines generalizing b info with
  | nil => simp
  | cons l ls ih =>
    simp only [List.foldl_cons, List.map_cons, List.sum_cons, List.length_cons]
    obtain ⟨h1, h2, h3, h4⟩ := scanLine_fields (b, info) l
    rcases hsl : scanLine (b, info) l with ⟨b2, info2⟩
    rw [hsl] at h1 h2 h3 h4
    dsimp only at h1 h2 h3 h4
    obtain ⟨g1, g2, g3, g4⟩ := ih b2 info2
    exact ⟨by rw [g1, h1]; omega, by rw [g2, h2]; omega, by rw [g3, h3], by rw [g4, h4]⟩

theorem chunksOf_nil (cs : Nat) : chunksOf cs ([] : List α) = [] := by
  simp [chunksOf]

theorem chunksOf_cons (cs : Nat) (hcs : cs ≠ 0) (x : α) (xs : List α) :
    chunksOf cs (x :: xs) = (x :: xs).take cs :: chunksOf cs ((x :: xs).drop cs) := by
  rw [chunksOf]
  simp [hcs]

theorem chunksOf_eq_nil_iff (cs : Nat) (xs : List α) : chunksOf cs xs = [] ↔ xs = [] := by
  cases xs with
  | nil => simp [chunksOf]
  | cons x l =>
    by_cases hcs : cs = 0
    · subst hcs; simp [chunksOf]
    · rw [chunksOf_cons cs hcs]; simp

theorem chunksOf_join (cs : Nat) (hcs : cs ≠ 0) :
    ∀ (xs : List α), (chunksOf cs xs).flatten = xs
  | [] => by simp [chunksOf]
  | x :: xs => by
    rw [chunksOf_cons cs hcs]
    have ih := chunksOf_join cs hcs ((x :: xs).drop cs)
    simp [ih]
termination_by xs => xs.length
decreasing_by simp only [List.length_drop, List.length_cons]; omega

theorem chunksOf_ne_nil (cs : Nat) (hcs : cs ≠ 0) :
    ∀ (xs : List α), ∀ c ∈ chunksOf cs xs, c ≠ []
  | [] => by simp [chunksOf]
  | x :: xs => by
    rw [chunksOf_cons cs hcs]
    intro c hc
    rcases List.mem_cons.mp hc with rfl | h
    · obtain ⟨n, rfl⟩ := Nat.exists_eq_succ_of_ne_zero hcs
      simp
    · exact chunksOf_ne_nil cs hcs _ c h
termination_by xs => xs.length
decreasing_by simp only [List.length_drop, List.length_cons]; omega

theorem chunksOf_length_le_size (cs : Nat) (hcs : cs ≠ 0) :
    ∀ (xs : List α), ∀ c ∈ chunksOf cs xs, c.length ≤ cs
  | [] => by simp [chunksOf]
  | x :: xs => by
    rw [chunksOf_cons cs hcs]
    intro c hc
    rcases List.mem_cons.mp hc with rfl | h
    · simp [List.length_take]
    · exact chunksOf_length_le_size cs hcs _ c h
termination_by xs => xs.length
decreasing_by simp only [List.length_drop, List.length_cons]; omega

theorem chunksOf_dropLast_full (cs : Nat) (hcs : cs ≠ 0) :
    ∀ (xs : List α), ∀ c ∈ (chunksOf cs xs).dropLast, c.length = cs
  | [] => by simp [chunksOf]
  | x :: xs => by
    rw [chunksOf_cons cs hcs]
    rcases hrest : chunksOf cs ((x :: xs).drop cs) with _ | ⟨c0, cr⟩
    · simp
    · intro c hc
      rw [List.dropLast_cons₂] at hc
      rcases List.mem_cons.mp hc with rfl | h
      · have hd : (x :: xs).drop cs ≠ [] := by
          intro he
          rw [he, chunksOf_nil] at hrest
          exact List.noConfusion hrest
        have hle : cs ≤ (x :: xs).length := by
          by_contra hlt
          push_neg at hlt
          exact hd (List.drop_eq_nil_of_le (Nat.le_of_lt hlt))
        simp only [List.length_take, List.length_cons]
        simp only [List.length_cons] at hle
        omega
      · rw [← hrest] at h
        exact chunksOf_dropLast_full cs hcs _ c h
termination_by xs => xs.length
decreasing_by simp only [List.length_drop, List.length_cons]; omega

theorem chunksOf_count_le (cs : Nat) (hcs : cs ≠ 0) :
    ∀ (k : Nat) (xs : List α), xs.length ≤ k * cs → (chunksOf cs xs).length ≤ k
  | k, [] => fun _ => by simp [chunksOf]
  | k, x :: xs => fun h => by
    rw [chunksOf_cons cs hcs]
    cases k with
    | zero => simp at h
    | succ k =>
      have hmul : (k + 1) * cs = k * cs + cs := Nat.succ_mul k cs
      have hrec := chunksOf_count_le cs hcs k ((x :: xs).drop cs) (by
        simp only [List.length_drop, List.length_cons]
        simp only [List.length_cons] at h
        omega)
      simpa using Nat.succ_le_succ hrec
termination_by _ xs => xs.length
decreasing_by simp only [List.length_drop, List.length_cons]; omega

/-! ## Claim theorems -/

/-- Claim C2: A trimmed non-empty line that starts with a registered single-line
comment marker is classified `Comment` with the block state unchanged, for
either value of the block state — so this rule beats both the block-open rule
and the inside-block rule; and `"--"` sits in both the single-line and the
block-open tables. -/
theorem c2_single_comment_priority :
    (∀ (line : String) (b : Bool), line ≠ "" → is_single_comment line = true →
      classify line b = (Category.comment, b)) ∧
    "--" ∈ SINGLE_COMMENT_PREFIXES ∧ "--" ∈ BLOCK_COMMENT_PREFIXES := by
  refine ⟨?_, by decide, by decide⟩
  intro line b hne hs
  simp [classify, hne, hs]

theorem c2_single_comment_priority_witness :
    ("-- both tables" : String) ≠ "" ∧
    is_single_comment "-- both tables" = true ∧
    is_begin_block_comments "-- both tables" = true ∧
    classify "-- both tables" false = (Category.comment, false) ∧
    classify "-- both tables" true = (Category.comment, true) :=
  ⟨by decide, by decide, by decide,
    c2_single_comment_priority.1 "-- both tables" false (by decide) (by decide),
    c2_single_comment_priority.1 "-- both tables" true (by decide) (by decide)⟩

/-- Claim C3: While inside a block comment, a non-empty line matching no
single-line marker and no block-open marker is a comment, and the state
leaves the block exactly when the line ends with a registered close marker;
an open marker seen inside keeps the single boolean state at `true` (no
nesting); and the four-line example scans to
`[Comment, Comment, Comment, Code]`, leaving the block after line 3. -/
theorem c3_block_comment_rule :
    (∀ (line : String), line ≠ "" → is_single_comment line = false →
      is_begin_block_comments line = false →
      classify line true =
        (Category.comment, if is_end_block_comments line then false else true)) ∧
    (∀ (line : String) (b : Bool), line ≠ "" → is_single_comment line = false →
      is_begin_block_comments line = true →
      classify line b = (Category.comment, true)) ∧
    classifyLines ["/* start", "still inside", "end */", "code();"] false =
      ([Category.comment, Category.comment, Category.comment, Category.code], false) ∧
    (classifyLines ["/* start", "still inside", "end */"] false).2 = false := by
  refine ⟨?_, ?_, by decide, by decide⟩
  · intro line hne hs hb
    simp [classify, hne, hs, hb]
  · intro line b hne hs hb
    simp [classify, hne, hs, hb]

theorem c3_block_comment_rule_witness :
    ("end */" : String) ≠ "" ∧
    is_single_comment "end */" = false ∧
    is_begin_block_comments "end */" = false ∧
    classify "end */" true =
      (Category.comment, if is_end_block_comments "end */" then false else true) :=
  ⟨by decide, by decide, by decide,
    c3_block_comment_rule.1 "end */" (by decide) (by decide) (by decide)⟩

/-- Claim C10: `ret_file_type` hits `unwrap` on `None` for a path with neither
an extension nor a file-name component (`".."`, `"/"`): the scan of such a
path panics instead of returning an I/O error; and whenever the path has a
file-name component, `ret_file_type` is total. -/
theorem c10_ret_file_type_panic :
    ret_file_type ".." = none ∧
    ret_file_type "/" = none ∧
    count_file (fun _ => FsEntry.file [] false) ".." = ScanOut.panicked ∧
    (∀ (p f : String), file_name p = some f → (ret_file_type p).isSome = true) := by
  refine ⟨by decide, by decide, by decide, ?_⟩
  intro p f h
  simp only [ret_file_type, extension, h]
  cases hd : lastDotIdx f.data with
  | none => simp [h]
  | some i =>
    by_cases hi : i = 0
    · simp [hi, h]
    · simp [hi]

theorem c10_ret_file_type_panic_witness :
    file_name "main.rs" = some "main.rs" ∧
    (ret_file_type "main.rs").isSome = true :=
  ⟨by decide, c10_ret_file_type_panic.2.2.2 "main.rs" "main.rs" (by decide)⟩

theorem count_file_eq (fs : Fs) (path : String) (lines : List String)
    (hfs : fs path = FsEntry.file lines false) (ft : String)
    (hrt : ret_file_type path = some ft) :
    count_file fs path =
      ScanOut.ok (lines.foldl scanLine (false, ({ filetype := ft } : FileInfo))).2 := by
  simp [count_file, hfs, hrt]

/-- Claim C9: For every successfully scanned file the byte count is the sum
over its lines of `trimmed length + 1` and the step count is the number of
lines; the 4/0/10 example gives bytes `17` and steps `3`. -/
theorem c9_bytes_steps :
    (∀ (fs : Fs) (path : String) (lines : List String) (fi : FileInfo),
      fs path = FsEntry.file lines false → count_file fs path = ScanOut.ok fi →
      fi.bytes = (lines.map (fun l => (strTrim l).utf8ByteSize + 1)).sum ∧
      fi.steps = lines.length) ∧
    count_file fsBytes "notes.txt" =
      ScanOut.ok { filetype := "txt", steps := 3, blanks := 1, comments := 0,
                   files := 0, bytes := 17 } := by
  refine ⟨?_, by decide⟩
  intro fs path lines fi hfs hok
  cases hrt : ret_file_type path with
  | none => simp [count_file, hfs, hrt] at hok
  | some ft =>
    rw [count_file_eq fs path lines hfs ft hrt] at hok
    injection hok with h
    obtain ⟨hsteps, hbytes, -, -⟩ := scanAccum lines false ({ filetype := ft } : FileInfo)
    rw [← h]
    exact ⟨by simp [hbytes], by simp [hsteps]⟩

theorem c9_bytes_steps_witness :
    fsBytes "notes.txt" = FsEntry.file ["abcd", "", "0123456789"] false ∧
    count_file fsBytes "notes.txt" =
      ScanOut.ok { filetype := "txt", steps := 3, blanks := 1, comments := 0,
                   files := 0, bytes := 17 } ∧
    ({ filetype := "txt", steps := 3, blanks := 1, comments := 0, files := 0,
       bytes := 17 } : FileInfo).bytes =
      ((["abcd", "", "0123456789"] : List String).map
        (fun l => (strTrim l).utf8ByteSize + 1)).sum ∧
    ({ filetype := "txt", steps := 3, blanks := 1, comments := 0, files := 0,
       bytes := 17 } : FileInfo).steps =
      (["abcd", "", "0123456789"] : List String).length :=
  ⟨by decide, by decide,
    (c9_bytes_steps.1 fsBytes "notes.txt" ["abcd", "", "0123456789"]
      { filetype := "txt", steps := 3, blanks := 1, comments := 0, files := 0,
        bytes := 17 } (by decide) (by decide)).1,
    (c9_bytes_steps.1 fsBytes "notes.txt" ["abcd", "", "0123456789"]
      { filetype := "txt", steps := 3, blanks := 1, comments := 0, files := 0,
        bytes := 17 } (by decide) (by decide)).2⟩

theorem mergeScan_absent (fi : FileInfo) :
    ∀ (m : BufMap), lookupTag fi.filetype m = none →
      mergeScan m fi = m ++ [(fi.filetype, addInto {} fi)]
  | [] => fun _ => rfl
  | (k, v) :: rest => fun h => by
    by_cases hk : k = fi.filetype
    · simp [lookupTag, hk] at h
    · simp only [lookupTag, hk, if_false] at h
      simp [mergeScan, hk, mergeScan_absent fi rest h]

theorem mergeScan_present (fi : FileInfo) :
    ∀ (m : BufMap) (v : FileInfo), lookupTag fi.filetype m = some v →
      lookupTag fi.filetype (mergeScan m fi) = some (addInto v fi)
  | [] => fun v h => by simp [lookupTag] at h
  | (k, w) :: rest => fun v h => by
    by_cases hk : k = fi.filetype
    · simp only [lookupTag, hk, if_true] at h
      injection h with h
      simp [mergeScan, hk, lookupTag, h]
    · simp only [lookupTag, hk, if_false] at h
      simp [mergeScan, hk, lookupTag, mergeScan_present fi rest v h]

theorem mergeScan_other (fi : FileInfo) (t : String) (ht : t ≠ fi.filetype) :
    ∀ (m : BufMap), lookupTag t (mergeScan m fi) = lookupTag t m
  | [] => by
    simp [mergeScan, lookupTag, Ne.symm ht]
  | (k, v) :: rest => by
    by_cases hk : k = fi.filetype
    · simp [mergeScan, hk, lookupTag, Ne.symm ht]
    · by_cases hkt : k = t
      · subst hkt
        simp [mergeScan, hk, lookupTag]
      · simp [mergeScan, hk, lookupTag, hkt, mergeScan_other fi t ht rest]

theorem mergeScan_keys (fi : FileInfo) :
    ∀ (m : BufMap) (t : String),
      t ∈ (mergeScan m fi).map Prod.fst ↔ t ∈ m.map Prod.fst ∨ t = fi.filetype
  | [], t => by simp [mergeScan]
  | (k, v) :: rest, t => by
    by_cases hk : k = fi.filetype
    · subst hk
      have hm : mergeScan ((fi.filetype, v) :: rest) fi =
          (fi.filetype, addInto v fi) :: rest := by simp [mergeScan]
      rw [hm]
      simp only [List.map_cons, List.mem_cons]
      tauto
    · have ih := mergeScan_keys fi rest t
      simp only [mergeScan]
      rw [if_neg hk]
      simp only [List.map_cons, List.mem_cons]
      rw [ih]
      tauto

theorem mergeScan_nodup (fi : FileInfo) :
    ∀ (m : BufMap), (m.map Prod.fst).Nodup → ((mergeScan m fi).map Prod.fst).Nodup
  | [] => fun _ => by simp [mergeScan]
  | (k, v) :: rest => fun h => by
    rw [List.map_cons, List.nodup_cons] at h
    dsimp only at h
    by_cases hk : k = fi.filetype
    · subst hk
      have hm : mergeScan ((fi.filetype, v) :: rest) fi =
          (fi.filetype, addInto v fi) :: rest := by simp [mergeScan]
      rw [hm]
      simp only [List.map_cons, List.nodup_cons]
      exact ⟨h.1, h.2⟩
    · simp only [mergeScan]
      rw [if_neg hk]
      simp only [List.map_cons, List.nodup_cons]
      refine ⟨?_, mergeScan_nodup fi rest h.2⟩
      intro hmem
      rcases (mergeScan_keys fi rest k).mp (by simpa using hmem) with h2 | h2
      · exact h.1 h2
      · exact hk h2

theorem foldl_mergeScan_keys (fis : List FileInfo) :
    ∀ (m : BufMap),
      ((m.map Prod.fst).Nodup → (((fis.foldl mergeScan m).map Prod.fst).Nodup)) ∧
      (∀ t, t ∈ (fis.foldl mergeScan m).map Prod.fst ↔
        t ∈ m.map Prod.fst ∨ t ∈ fis.map FileInfo.filetype) := by
  induction fis with
  | nil => intro m; simp
  | cons fi fis ih =>
    intro m
    refine ⟨fun h => (ih (mergeScan m fi)).1 (mergeScan_nodup fi m h), ?_⟩
    intro t
    rw [List.foldl_cons, ((ih (mergeScan m fi)).2 t), mergeScan_keys fi m t]
    simp [or_assoc, or_comm, or_left_comm]

/-- Claim C7: Merging one scanned file: a zero bucket is created when the tag is
absent (appended, all counters zero before the addition), the bucket of the
tag gains the scanned `steps`/`blanks`/`comments`/`bytes` and exactly one `files`,
every other bucket is untouched, and after any sequence of merges into the
empty map the keys are exactly the distinct tags observed, each once. -/
theorem c7_merge_bucket (m : BufMap) (fi : FileInfo) :
    (lookupTag fi.filetype m = none →
      mergeScan m fi = m ++ [(fi.filetype, addInto {} fi)]) ∧
    (∀ v, lookupTag fi.filetype m = some v →
      lookupTag fi.filetype (mergeScan m fi) = some (addInto v fi)) ∧
    (∀ t, t ≠ fi.filetype → lookupTag t (mergeScan m fi) = lookupTag t m) ∧
    addInto {} fi = { filetype := "", steps := fi.steps, blanks := fi.blanks,
                      comments := fi.comments, files := 1, bytes := fi.bytes } ∧
    (∀ v, (addInto v fi).files = v.files + 1 ∧ (addInto v fi).steps = v.steps + fi.steps ∧
      (addInto v fi).blanks = v.blanks + fi.blanks ∧
      (addInto v fi).comments = v.comments + fi.comments ∧
      (addInto v fi).bytes = v.bytes + fi.bytes ∧
      (addInto v fi).filetype = v.filetype) ∧
    ((m.map Prod.fst).Nodup → ((mergeScan m fi).map Prod.fst).Nodup) ∧
    (∀ t, t ∈ (mergeScan m fi).map Prod.fst ↔ t ∈ m.map Prod.fst ∨ t = fi.filetype) ∧
    (∀ (fis : List FileInfo),
      ((fis.foldl mergeScan []).map Prod.fst).Nodup ∧
      (∀ t, t ∈ (fis.foldl mergeScan []).map Prod.fst ↔
        t ∈ fis.map FileInfo.filetype)) := by
  refine ⟨mergeScan_absent fi m, fun v => mergeScan_present fi m v,
    fun t ht => mergeScan_other fi t ht m, by simp [addInto],
    fun v => ⟨rfl, rfl, rfl, rfl, rfl, rfl⟩,
    mergeScan_nodup fi m, mergeScan_keys fi m, ?_⟩
  intro fis
  refine ⟨(foldl_mergeScan_keys fis []).1 (by simp), fun t => ?_⟩
  rw [(foldl_mergeScan_keys fis []).2 t]
  simp

theorem c7_merge_bucket_witness :
    lookupTag fiPy.filetype [("rs", bucketRs)] = none ∧
    mergeScan [("rs", bucketRs)] fiPy =
      [("rs", bucketRs)] ++ [(fiPy.filetype, addInto {} fiPy)] :=
  ⟨by decide, (c7_merge_bucket [("rs", bucketRs)] fiPy).1 (by decide)⟩

theorem addTotals_fold (l : List FileInfo) :
    ∀ (acc : CntResult),
      (l.foldl addTotals acc).all_steps = acc.all_steps + (l.map FileInfo.steps).sum ∧
      (l.foldl addTotals acc).all_blanks = acc.all_blanks + (l.map FileInfo.blanks).sum ∧
      (l.foldl addTotals acc).all_comments =
        acc.all_comments + (l.map FileInfo.comments).sum ∧
      (l.foldl addTotals acc).all_files = acc.all_files + (l.map FileInfo.files).sum ∧
      (l.foldl addTotals acc).all_bytes = acc.all_bytes + (l.map FileInfo.bytes).sum ∧
      (l.foldl addTotals acc).info = acc.info ∧
      (l.foldl addTotals acc).input_path = acc.input_path := by
  induction l with
  | nil => intro acc; simp
  | cons fi l ih =>
    intro acc
    obtain ⟨g1, g2, g3, g4, g5, g6, g7⟩ := ih (addTotals acc fi)
    simp only [List.foldl_cons, List.map_cons, List.sum_cons]
    refine ⟨?_, ?_, ?_, ?_, ?_, ?_, ?_⟩
    · rw [g1]; dsimp only [addTotals]; omega
    · rw [g2]; dsimp only [addTotals]; omega
    · rw [g3]; dsimp only [addTotals]; omega
    · rw [g4]; dsimp only [addTotals]; omega
    · rw [g5]; dsimp only [addTotals]; omega
    · rw [g6]; dsimp only [addTotals]
    · rw [g7]; dsimp only [addTotals]

theorem mkResult_spec (ip : String) (m : BufMap) :
    (mkResult ip m).info = m.map Prod.snd ∧
    (mkResult ip m).input_path = ip ∧
    (mkResult ip m).all_steps = ((m.map Prod.snd).map FileInfo.steps).sum ∧
    (mkResult ip m).all_blanks = ((m.map Prod.snd).map FileInfo.blanks).sum ∧
    (mkResult ip m).all_comments = ((m.map Prod.snd).map FileInfo.comments).sum ∧
    (mkResult ip m).all_files = ((m.map Prod.snd).map FileInfo.files).sum ∧
    (mkResult ip m).all_bytes = ((m.map Prod.snd).map FileInfo.bytes).sum := by
  obtain ⟨g1, g2, g3, g4, g5, g6, g7⟩ :=
    addTotals_fold (m.map Prod.snd)
      ({ info := m.map Prod.snd, input_path := ip } : CntResult)
  have h0 : mkResult ip m = (m.map Prod.snd).foldl addTotals
      ({ info := m.map Prod.snd, input_path := ip } : CntResult) := rfl
  rw [h0]
  exact ⟨g6, g7, by rw [g1]; simp, by rw [g2]; simp, by rw [g3]; simp,
    by rw [g4]; simp, by rw [g5]; simp⟩

/-- Claim C8: Every successful `count` returns a `CntResult` whose five grand
totals each equal the fold-computed sum of the corresponding field over the
`info` snapshot. -/
theorem c8_grand_totals (fs : Fs) (files : List String) (ip : String) (r : CntResult)
    (hok : count fs files ip = Outcome.ok r) :
    r.all_steps = (r.info.map FileInfo.steps).sum ∧
    r.all_blanks = (r.info.map FileInfo.blanks).sum ∧
    r.all_comments = (r.info.map FileInfo.comments).sum ∧
    r.all_files = (r.info.map FileInfo.files).sum ∧
    r.all_bytes = (r.info.map FileInfo.bytes).sum := by
  have hm : ∃ m : BufMap, r = mkResult ip m := by
    unfold count countSequential countConcurrent at hok
    by_cases h : files.length ≥ CONCURRENCY_THRESHOLD
    · rw [if_pos h] at hok
      cases hrc : runChunks fs (chunksOf ((files.length + 2) / 3) files) [] with
      | ok m =>
        rw [hrc] at hok
        exact ⟨m, by injection hok with h2; exact h2.symm⟩
      | ioError => rw [hrc] at hok; exact Outcome.noConfusion hok
      | panicked => rw [hrc] at hok; exact Outcome.noConfusion hok
    · rw [if_neg h] at hok
      cases hrc : seqRun fs files [] with
      | ok m =>
        rw [hrc] at hok
        exact ⟨m, by injection hok with h2; exact h2.symm⟩
      | ioError => rw [hrc] at hok; exact Outcome.noConfusion hok
      | panicked => rw [hrc] at hok; exact Outcome.noConfusion hok
  obtain ⟨m, rfl⟩ := hm
  obtain ⟨g1, g2, g3, g4, g5, g6, g7⟩ := mkResult_spec ip m
  rw [g1]
  exact ⟨g3, g4, g5, g6, g7⟩

theorem c8_grand_totals_witness :
    count fsMain ["main.rs"] "." = Outcome.ok mainResult ∧
    (mainResult.all_steps = (mainResult.info.map FileInfo.steps).sum ∧
     mainResult.all_blanks = (mainResult.info.map FileInfo.blanks).sum ∧
     mainResult.all_comments = (mainResult.info.map FileInfo.comments).sum ∧
     mainResult.all_files = (mainResult.info.map FileInfo.files).sum ∧
     mainResult.all_bytes = (mainResult.info.map FileInfo.bytes).sum) :=
  ⟨by decide, c8_grand_totals fsMain ["main.rs"] "." mainResult (by decide)⟩

theorem seqRun_err (fs : Fs) (f : String) (hf : count_file fs f = ScanOut.ioError) :
    ∀ (pre : List String), (∀ g ∈ pre, ∃ fi, count_file fs g = ScanOut.ok fi) →
      ∀ (post : List String) (m : BufMap),
        seqRun fs (pre ++ f :: post) m = Outcome.ioError
  | [] => fun _ post m => by
    simp [seqRun, process_file, hf]
  | g :: pre => fun hpre post m => by
    obtain ⟨fi, hfi⟩ := hpre g (by simp)
    simp only [List.cons_append, seqRun, process_file, hfi]
    exact seqRun_err fs f hf pre (fun g2 hg2 => hpre g2 (by simp [hg2])) post
      (mergeScan m fi)

/-- Claim C4: On the sequential path (fewer than 6 files) the first per-file
I/O error makes `count` return the error — no result is produced, and the
outcome is the same whatever files follow the failing one (they are never
processed). -/
theorem c4_sequential_fail_fast (fs : Fs) (pre : List String) (f : String)
    (post : List String) (ip : String)
    (hlen : (pre ++ f :: post).length < CONCURRENCY_THRESHOLD)
    (hpre : ∀ g ∈ pre, ∃ fi, count_file fs g = ScanOut.ok fi)
    (hf : count_file fs f = ScanOut.ioError) :
    count fs (pre ++ f :: post) ip = Outcome.ioError ∧
    ∀ (post2 : List String), (pre ++ f :: post2).length < CONCURRENCY_THRESHOLD →
      count fs (pre ++ f :: post2) ip = Outcome.ioError := by
  have main : ∀ (post3 : List String),
      (pre ++ f :: post3).length < CONCURRENCY_THRESHOLD →
      count fs (pre ++ f :: post3) ip = Outcome.ioError := by
    intro post3 hl3
    have hseq := seqRun_err fs f hf pre hpre post3 []
    unfold count countSequential
    rw [if_neg (by omega)]
    rw [hseq]
  exact ⟨main post hlen, main⟩

theorem c4_sequential_fail_fast_witness :
    ((["a.rs"] ++ "b.rs" :: ["c.rs"]) : List String).length < CONCURRENCY_THRESHOLD ∧
    count_file fsSeq "b.rs" = ScanOut.ioError ∧
    count fsSeq (["a.rs"] ++ "b.rs" :: ["c.rs"]) "." = Outcome.ioError := by
  refine ⟨by decide, by decide, ?_⟩
  refine (c4_sequential_fail_fast fsSeq ["a.rs"] "b.rs" ["c.rs"] "."
    (by decide) ?_ (by decide)).1
  intro g hg
  have : g = "a.rs" := by simpa using hg
  subst this
  exact ⟨{ filetype := "rs", steps := 1, blanks := 0, comments := 1, files := 0,
           bytes := 5 }, by decide⟩

theorem process_files_ok (fs : Fs) :
    ∀ (files : List String) (m : BufMap),
      (∀ f ∈ files, count_file fs f ≠ ScanOut.panicked) →
      process_files fs files m = Outcome.ok ((okScans fs files).foldl mergeScan m) := by
  intro files
  induction files with
  | nil => intro m _; simp [process_files, okScans]
  | cons f rest ih =>
    intro m h
    cases hc : count_file fs f with
    | panicked => exact absurd hc (h f (by simp))
    | ioError =>
      have hsc : okScans fs (f :: rest) = okScans fs rest := by
        simp [okScans, List.filterMap_cons, hc]
      rw [hsc]
      simp only [process_files, hc]
      exact ih m (fun g hg => h g (by simp [hg]))
    | ok fi =>
      have hsc : okScans fs (f :: rest) = fi :: okScans fs rest := by
        simp [okScans, List.filterMap_cons, hc]
      rw [hsc]
      simp only [process_files, hc, List.foldl_cons]
      exact ih (mergeScan m fi) (fun g hg => h g (by simp [hg]))

theorem runChunks_ok (fs : Fs) :
    ∀ (chunks : List (List String)) (m : BufMap),
      (∀ c ∈ chunks, ∀ f ∈ c, count_file fs f ≠ ScanOut.panicked) →
      runChunks fs chunks m =
        Outcome.ok ((okScans fs chunks.flatten).foldl mergeScan m) := by
  intro chunks
  induction chunks with
  | nil => intro m _; simp [runChunks, okScans]
  | cons c rest ih =>
    intro m h
    have h1 := process_files_ok fs c m (fun f hf => h c (by simp) f hf)
    simp only [runChunks, h1, List.flatten_cons]
    have hsp : okScans fs (c ++ rest.flatten) =
        okScans fs c ++ okScans fs rest.flatten := by
      simp [okScans, List.filterMap_append]
    rw [hsp, List.foldl_append]
    exact ih ((okScans fs c).foldl mergeScan m)
      (fun c2 hc2 f hf => h c2 (by simp [hc2]) f hf)

theorem mergeScan_files_sum (fi : FileInfo) :
    ∀ (m : BufMap),
      (((mergeScan m fi).map Prod.snd).map FileInfo.files).sum =
        ((m.map Prod.snd).map FileInfo.files).sum + 1
  | [] => by simp [mergeScan, addInto]
  | (k, v) :: rest => by
    by_cases hk : k = fi.filetype
    · have hm : mergeScan ((k, v) :: rest) fi = (k, addInto v fi) :: rest := by
        simp [mergeScan, hk]
      rw [hm]
      simp only [List.map_cons, List.sum_cons]
      dsimp only [addInto]
      omega
    · have hm : mergeScan ((k, v) :: rest) fi = (k, v) :: mergeScan rest fi := by
        simp [mergeScan, hk]
      rw [hm]
      simp only [List.map_cons, List.sum_cons]
      rw [mergeScan_files_sum fi rest]
      omega

theorem foldl_mergeScan_files (fis : List FileInfo) :
    ∀ (m : BufMap),
      (((fis.foldl mergeScan m).map Prod.snd).map FileInfo.files).sum =
        ((m.map Prod.snd).map FileInfo.files).sum + fis.length := by
  induction fis with
  | nil => intro m; simp
  | cons fi fis ih =>
    intro m
    simp only [List.foldl_cons, List.length_cons]
    rw [ih (mergeScan m fi), mergeScan_files_sum fi m]
    omega

/-- Claim C5: On the concurrent path (at least 6 files, no panicking path
names) `count` succeeds even when some files fail with I/O errors: the
result aggregates exactly the successfully scanned files — its snapshot is
the merge of their scan records in order, and its total file count is the
number of successful scans, so a failing file contributes to nothing. -/
theorem c5_concurrent_fail_soft (fs : Fs) (files : List String) (ip : String)
    (hlen : CONCURRENCY_THRESHOLD ≤ files.length)
    (hnp : ∀ f ∈ files, count_file fs f ≠ ScanOut.panicked) :
    count fs files ip = Outcome.ok (mkResult ip ((okScans fs files).foldl mergeScan [])) ∧
    (mkResult ip ((okScans fs files).foldl mergeScan [])).info =
      ((okScans fs files).foldl mergeScan []).map Prod.snd ∧
    (mkResult ip ((okScans fs files).foldl mergeScan [])).all_files =
      (okScans fs files).length := by
  have h6 : 6 ≤ files.length := hlen
  have hcs : ((files.length + 2) / 3) ≠ 0 := by omega
  have hflat := chunksOf_join ((files.length + 2) / 3) hcs files
  have hrun := runChunks_ok fs (chunksOf ((files.length + 2) / 3) files) []
    (fun c hc f hf => hnp f (by rw [← hflat]; exact List.mem_flatten.mpr ⟨c, hc, hf⟩))
  rw [hflat] at hrun
  refine ⟨?_, (mkResult_spec ip _).1, ?_⟩
  · unfold count countConcurrent
    rw [if_pos (show files.length ≥ CONCURRENCY_THRESHOLD from hlen)]
    rw [hrun]
  · rw [(mkResult_spec ip ((okScans fs files).foldl mergeScan [])).2.2.2.2.2.1]
    rw [foldl_mergeScan_files]
    simp

theorem c5_concurrent_fail_soft_witness :
    CONCURRENCY_THRESHOLD ≤ sixFiles.length ∧
    count_file fsSix "bad.rs" = ScanOut.ioError ∧
    count fsSix sixFiles "src" =
      Outcome.ok (mkResult "src" ((okScans fsSix sixFiles).foldl mergeScan [])) ∧
    (mkResult "src" ((okScans fsSix sixFiles).foldl mergeScan [])).all_files =
      (okScans fsSix sixFiles).length ∧
    (okScans fsSix sixFiles).length = 5 := by
  have h := c5_concurrent_fail_soft fsSix sixFiles "src" (by decide) (by decide)
  exact ⟨by decide, by decide, h.1, h.2.2, by decide⟩

/-- Claim C6: `count` goes sequential exactly below 6 files; at or above the
threshold it splits the list into at most 3 contiguous non-empty chunks of
size `(len + 2) / 3 = ceil(len / 3)` (all full except possibly the last),
whose concatenation is the original list — so each file belongs to exactly
the chunk of exactly one worker. -/
theorem c6_dispatch_chunking :
    (∀ (fs : Fs) (files : List String) (ip : String),
      files.length < CONCURRENCY_THRESHOLD →
      count fs files ip = countSequential fs files ip) ∧
    (∀ (fs : Fs) (files : List String) (ip : String),
      CONCURRENCY_THRESHOLD ≤ files.length →
      count fs files ip = countConcurrent fs files ip) ∧
    (∀ (files : List String), CONCURRENCY_THRESHOLD ≤ files.length →
      files.length ≤ 3 * ((files.length + 2) / 3) ∧
      3 * ((files.length + 2) / 3) < files.length + 3 ∧
      (chunksOf ((files.length + 2) / 3) files).flatten = files ∧
      (chunksOf ((files.length + 2) / 3) files).length ≤ 3 ∧
      (∀ c ∈ chunksOf ((files.length + 2) / 3) files, c ≠ []) ∧
      (∀ c ∈ chunksOf ((files.length + 2) / 3) files,
        c.length ≤ (files.length + 2) / 3) ∧
      (∀ c ∈ (chunksOf ((files.length + 2) / 3) files).dropLast,
        c.length = (files.length + 2) / 3)) := by
  refine ⟨?_, ?_, ?_⟩
  · intro fs files ip h
    unfold count
    rw [if_neg (by omega)]
  · intro fs files ip h
    unfold count
    rw [if_pos (show files.length ≥ CONCURRENCY_THRESHOLD from h)]
  · intro files h
    have h6 : 6 ≤ files.length := h
    have hcs : ((files.length + 2) / 3) ≠ 0 := by omega
    exact ⟨by omega, by omega, chunksOf_join _ hcs files,
      chunksOf_count_le _ hcs 3 files (by omega),
      fun c hc => chunksOf_ne_nil _ hcs files c hc,
      fun c hc => chunksOf_length_le_size _ hcs files c hc,
      fun c hc => chunksOf_dropLast_full _ hcs files c hc⟩

theorem c6_dispatch_chunking_witness :
    CONCURRENCY_THRESHOLD ≤ sixFiles.length ∧
    (chunksOf ((sixFiles.length + 2) / 3) sixFiles).flatten = sixFiles ∧
    (chunksOf ((sixFiles.length + 2) / 3) sixFiles).length ≤ 3 ∧
    (["x.c"] : List String).length < CONCURRENCY_THRESHOLD ∧
    count fsMain ["x.c"] "." = countSequential fsMain ["x.c"] "." := by
  have h3 := c6_dispatch_chunking.2.2 sixFiles (by decide)
  exact ⟨by decide, h3.2.2.1, h3.2.2.2.1, by decide,
    c6_dispatch_chunking.1 fsMain ["x.c"] "." (by decide)⟩

/-- Claim C1 fails on the code: the file `main.rs` is aggregated under the tag
`"rs"` (the map key), but the `filetype` field of the snapshot entry is the empty
string — `process_file` never copies the tag into the bucket it creates, so
no entry carries the tag it was aggregated under. -/
theorem c1_filetype_tag_lost :
    ret_file_type "main.rs" = some "rs" ∧
    seqRun fsMain ["main.rs"] [] =
      Outcome.ok [("rs", { filetype := "", steps := 1, blanks := 0, comments := 0,
                           files := 1, bytes := 10 })] ∧
    count fsMain ["main.rs"] "." = Outcome.ok mainResult ∧
    mainResult.info.map FileInfo.filetype = [""] ∧
    ("" : String) ≠ "rs" :=
  ⟨by decide, by decide, by decide, by decide, by decide⟩

end Counter
